import Mathlib

/-!
A shallow embedding of the go-validation engine (package `validation`).

The embedding covers:
* the value-dispatch engine `ValidateWithContext` with its helpers
  `validateMap` and `validateSlice` (validation.go, `src/unnamed/part_000`);
* the `Skip` marker rule (`skipRule`) and the `When`/`Else` combinator
  (`WhenRule`, second half of `src/struct.go`);
* the record (struct) field engine `ValidateStructWithContext` of
  `src/struct.go` together with `getErrorFieldName`,
  `DefaultGetErrorFieldName` and `DefaultFindStructFieldByName`;
* the `FieldRules` interface of `src/unnamed/part_001`
  (`NamedFieldRules.FindStructField`, `PointerFieldRules.FindStructField`);
* the copy-on-write options mechanism `WithOptions` of `src/option.go`.

Go interface values, reflection, and errors are modelled by inductive types.
A rule is a function from a context and a value to an optional error; the
`Skip` marker keeps its concrete `skipRule` structure so that the engine can
recognise it structurally, exactly as the Go code does with a type assertion.
-/

/-- Modelled from the spec (§4.1, §3 and §7): the repository's error model
file (`Errors`, `NewError`/`Error`, `InternalError`, `NewInternalError`) is
not under src/ — only its callers are.  `str` is a plain `errors.New` error,
`verr` a leaf validation `Error` (code, message template, named parameters),
`errs` the keyed `Errors` aggregate (modelled as an association list),
`internal` an `InternalError` wrapping an optional cause.
`fieldNotFound`/`fieldPointer` are the `ErrFieldNotFound`/`ErrFieldPointer`
values of src/struct.go and src/unnamed/part_001, and `skipFieldNotFound` is
the `ErrSkipFieldNotFound` sentinel of src/unnamed/part_001 (recognised by
identity, hence its own constructor). -/
inductive VErr where
  | str (msg : String)
  | verr (code msg : String) (params : List (String × String))
  | errs (entries : List (String × VErr))
  | internal (cause : Option VErr)
  | fieldNotFound (i : Nat)
  | fieldPointer (i : Nat)
  | skipFieldNotFound
deriving Repr

/-- `ErrStructPointer = errors.New("only a pointer to a struct can be validated")`
(src/struct.go). -/
def errStructPointer : VErr := .str "only a pointer to a struct can be validated"

/-- The check `if ie, ok := err.(InternalError); ok && ie.InternalError() != nil`
of src/struct.go line 105. -/
def isInternalWithCause : VErr → Bool
  | .internal (some _) => true
  | _ => false

/-- The check `errors.Is(err, ErrSkipFieldNotFound)`: `ErrSkipFieldNotFound`
is a fixed `errors.New` value compared by identity. -/
def isSkipFieldNotFound : VErr → Bool
  | .skipFieldNotFound => true
  | _ => false

/-- A Go map key, kept abstract up to the shapes the tests exercise.
`fmt.Sprintf("%v", key.Interface())` is modelled by `GoKey.render`. -/
inductive GoKey where
  | str (s : String)
  | int (n : Int)
deriving Repr, DecidableEq

/-- The textual rendering `fmt.Sprintf("%v", key)` of a map key. -/
def GoKey.render : GoKey → String
  | .str s => s
  | .int n => toString n

/-- One value of a map whose element type implements `Validatable`
(validateMap, part_000 lines 104-118): `nilIfaceM` is an entry whose
`Interface()` is nil (skipped by the `mv != nil` check); `melem res` is a
non-nil element whose `Validate(ctx)` returns `res`. -/
inductive MapElem where
  | nilIfaceM
  | melem (res : Option VErr)
deriving Repr

/-- One element of a slice/array whose element type implements `Validatable`
(validateSlice, part_000 lines 120-139): `nilPtrE` is a nil pointer element
(skipped by `v.Kind() == reflect.Ptr && v.IsNil()`), `nilIfaceE` an element
whose `Interface()` is nil (skipped by `ev != nil`), and `elemE res` a
proper element whose `Validate(ctx)` returns `res`. -/
inductive SElem where
  | nilPtrE
  | nilIfaceE
  | elemE (res : Option VErr)
deriving Repr

/-- A Go `interface{}` value as observed by `ValidateWithContext`
(part_000 lines 64-102), classified by the branch of the dispatch that
handles it:
* `nilV` — the nil interface (`reflect.ValueOf` gives an Invalid value);
* `nilPtr sv` — a typed nil pointer; `sv` records what `value.(Validatable)`
  would return were it reached (nil pointers of types whose pointer method
  set implements `Validatable` still carry the capability);
* `ptrTo v` — a non-nil pointer that does not itself implement
  `Validatable`, pointing at `v` (`rv.Elem().Interface()` re-boxes `v`);
* `validatable res` — a non-nil value implementing `Validatable` whose
  `Validate(ctx)` returns `res` (this branch has priority over the
  collection branches, as in the Go switch);
* `mapV entries` — a map whose element type implements `Validatable`;
* `sliceV elems` — a slice/array whose element type implements `Validatable`;
* `basic s` — any other value (strings, numbers, maps/slices of
  non-validatable elements, ...), which the dispatch switch falls through. -/
inductive GoVal where
  | nilV
  | nilPtr (sv : Option (Option VErr))
  | ptrTo (v : GoVal)
  | validatable (res : Option VErr)
  | mapV (entries : List (GoKey × MapElem))
  | sliceV (elems : List SElem)
  | basic (s : String)
deriving Repr

/-- `reflect.StructField` restricted to what the engine reads: the declared
name, the struct tag (as an association list queried by `Tag.Get`), and the
`Anonymous` flag. -/
structure StructField where
  name : String
  tags : List (String × String)
  anonymous : Bool
deriving Repr

/-- `f.Tag.Get(key)`: the tag value for `key`, or `""` when absent. -/
def tagGet (tags : List (String × String)) (key : String) : String :=
  match tags.find? (fun p => p.1 == key) with
  | some p => p.2
  | none => ""

/-- A struct field at runtime: its metadata and its current (dereferenced)
value.  A pointer to the field's storage is modelled as `GoVal.ptrTo` of
this value. -/
structure GoStructField where
  sf : StructField
  value : GoVal
deriving Repr

/-- A struct value: its ordered field list.  Field pointers are modelled by
the index of the field they address (see `FieldPtr`); `reflect.FieldByName`
is modelled as a search of this flat list (the promoted-field search of the
reflect package is not needed by any claim). -/
structure StructVal where
  fields : List GoStructField
deriving Repr

/-- `toFieldName` of src/unnamed/part_001 (also inlined in
`DefaultFindStructFieldByName` of src/struct.go): upper-case the first
letter when it is a lower-case ASCII letter.  (The Go code indexes
`name[0]` unconditionally and would panic on `""`; the model returns the
name unchanged there, a case no claim reaches.) -/
def toFieldName (name : String) : String :=
  match name.data with
  | [] => name
  | c :: cs => if 'a' ≤ c && c ≤ 'z' then String.mk (c.toUpper :: cs) else name

/-- `getErrorFieldName` of src/struct.go lines 274-282: use the first
comma-separated component of the struct tag `tagName` unless the tag is
empty, `"-"`, or has an empty name component; otherwise the declared name. -/
def getErrorFieldName (f : StructField) (tagName : String) : String :=
  if tagGet f.tags tagName != "" && tagGet f.tags tagName != "-" then
    if ((tagGet f.tags tagName).splitOn ",").headD "" != "" then
      ((tagGet f.tags tagName).splitOn ",").headD ""
    else f.name
  else f.name

/-- `DefaultGetErrorFieldName` of src/struct.go line 284-286. -/
def DefaultGetErrorFieldName (f : StructField) : String :=
  getErrorFieldName f "json"

/-- `DefaultFindStructFieldByName` of src/struct.go lines 226-242. -/
def DefaultFindStructFieldByName (sv : StructVal) (name : String) :
    Option GoStructField :=
  if name.length == 0 then none
  else sv.fields.find? (fun f => f.sf.name == toFieldName name)

/-- The `options` bundle read by the struct engine of src/struct.go through
`getOpts(ctx)` (the 3-field version of src/option.go that struct.go's
engine uses).  The valuer function is not read by the struct engine and is
omitted here; the copy-on-write behaviour of `WithOptions` is modelled
separately (see `OptVals` below). -/
structure GoOptions where
  getErrorFieldNameFunc : StructField → String
  findStructFieldByNameFunc : StructVal → String → Option GoStructField

/-- `defaultOptions` of src/option.go, restricted to the fields the struct
engine reads. -/
def defaultGoOptions : GoOptions :=
  { getErrorFieldNameFunc := DefaultGetErrorFieldName
    findStructFieldByNameFunc := DefaultFindStructFieldByName }

/-- A `context.Context` as the engine observes it: either `Background` or a
node carrying an options bundle under `optionsCtxKey` (`context.Value`
finds the nearest such node, so one node suffices). -/
inductive GoCtx where
  | background
  | withOptionsNode (parent : GoCtx) (opts : GoOptions)

/-- `getOpts(ctx)` of src/option.go: the options stored in the context, or
`defaultOptions` when the context is nil or carries none. -/
def getOpts : Option GoCtx → GoOptions
  | none => defaultGoOptions
  | some .background => defaultGoOptions
  | some (.withOptionsNode _ o) => o

/-- `skipRule` of src/unnamed/part_000 lines 143-145. -/
structure skipRule where
  skip : Bool
deriving Repr, DecidableEq

/-- `Skip = skipRule{skip: true}` (part_000 line 33). -/
def Skip : skipRule := { skip := true }

/-- `skipRule.When` (part_000 lines 152-155): copy with the flag set to the
condition. -/
def skipRule.When (r : skipRule) (condition : Bool) : skipRule :=
  { r with skip := condition }

/-- A `Rule` as the dispatch engine consumes it: the `skipRule` value kept
concrete (so the engine's type assertion `rule.(skipRule)` is a structural
match), every other rule abstracted to its `Validate` function.  Rules
receive the already-normalised (non-nil) context. -/
inductive GRule where
  | skipR (s : skipRule)
  | rule (f : GoCtx → GoVal → Option VErr)

/-- `Validate` of a rule: `skipRule.Validate` always returns nil
(part_000 lines 147-149); any other rule runs its function. -/
def GRule.Validate : GRule → GoCtx → GoVal → Option VErr
  | .skipR _, _, _ => none
  | .rule f, c, v => f c v

/-- The test `if s, ok := rule.(skipRule); ok && s.skip` of part_000
line 70. -/
def isSkipTrue : GRule → Bool
  | .skipR s => s.skip
  | .rule _ => false

/-- Insertion `errs[key] = err` into the `Errors` map, modelled on the
association list: replace the binding if the key is present, else append. -/
def insertErr : List (String × VErr) → String → VErr → List (String × VErr)
  | [], k, e => [(k, e)]
  | (k', e') :: rest, k, e =>
      if k' == k then (k, e) :: rest else (k', e') :: insertErr rest k e

/-- `for name, value := range es { errs[name] = value }`
(src/struct.go lines 111-113). -/
def mergeErrs (errs es : List (String × VErr)) : List (String × VErr) :=
  es.foldl (fun acc p => insertErr acc p.1 p.2) errs

/-- The outcome of the rule loop of `ValidateWithContext`
(part_000 lines 69-77). -/
inductive RulesOutcome where
  | earlyNil
  | failed (e : VErr)
  | passed
deriving Repr

/-- The rule loop of part_000 lines 69-77: at each rule, return success when
it is the `Skip` marker with the flag set; otherwise run its `Validate` and
stop at the first non-nil error. -/
def runRules (c : GoCtx) (value : GoVal) : List GRule → RulesOutcome
  | [] => .passed
  | r :: rest =>
      if isSkipTrue r then .earlyNil
      else
        match r.Validate c value with
        | some e => .failed e
        | none => runRules c value rest

/-- The loop body of `validateMap` (part_000 lines 105-113): skip entries
whose value interface is nil, run each element's `Validate`, record
failures under the rendered key. -/
def validateMapLoop (c : GoCtx) :
    List (GoKey × MapElem) → List (String × VErr) → List (String × VErr)
  | [], errs => errs
  | (k, me) :: rest, errs =>
      match me with
      | .nilIfaceM => validateMapLoop c rest errs
      | .melem res =>
          match res with
          | some e => validateMapLoop c rest (insertErr errs k.render e)
          | none => validateMapLoop c rest errs

/-- `validateMap` of part_000 lines 104-118. -/
def validateMap (c : GoCtx) (entries : List (GoKey × MapElem)) : Option VErr :=
  if (validateMapLoop c entries []).isEmpty then none
  else some (.errs (validateMapLoop c entries []))

/-- The loop body of `validateSlice` (part_000 lines 123-134), carrying the
running index used to key failures with `strconv.Itoa(i)`. -/
def validateSliceLoop (c : GoCtx) :
    Nat → List SElem → List (String × VErr) → List (String × VErr)
  | _, [], errs => errs
  | i, el :: rest, errs =>
      match el with
      | .nilPtrE => validateSliceLoop c (i + 1) rest errs
      | .nilIfaceE => validateSliceLoop c (i + 1) rest errs
      | .elemE res =>
          match res with
          | some e => validateSliceLoop c (i + 1) rest (insertErr errs (toString i) e)
          | none => validateSliceLoop c (i + 1) rest errs

/-- `validateSlice` of part_000 lines 120-139. -/
def validateSlice (c : GoCtx) (elems : List SElem) : Option VErr :=
  if (validateSliceLoop c 0 elems []).isEmpty then none
  else some (.errs (validateSliceLoop c 0 elems []))

/-- Steps 3-8 of the dispatch (part_000 lines 79-101): nil pointers are
valid; a `Validatable` value delegates to its own `Validate`; maps and
slices of validatable elements recurse element-wise; a remaining non-nil
pointer dereferences once and re-enters the algorithm with no rules (which
is exactly this function again); everything else is valid. -/
def dispatchAfterRules (c : GoCtx) : GoVal → Option VErr
  | .nilV => none
  | .nilPtr _ => none
  | .validatable res => res
  | .mapV entries => validateMap c entries
  | .sliceV elems => validateSlice c elems
  | .ptrTo v => dispatchAfterRules c v
  | .basic _ => none

/-- `ValidateWithContext` of part_000 lines 64-102: normalise a nil context
to `Background`, run the rule loop, then dispatch on the value. -/
def ValidateWithContext (ctx : Option GoCtx) (value : GoVal)
    (rules : List GRule) : Option VErr :=
  match runRules (ctx.getD .background) value rules with
  | .earlyNil => none
  | .failed e => some e
  | .passed => dispatchAfterRules (ctx.getD .background) value

/-- `WhenRule` of src/struct.go lines 304-308. -/
structure WhenRule where
  condition : Bool
  rules : List GRule
  elseRules : List GRule

/-- `When` of src/struct.go lines 295-301. -/
def When (condition : Bool) (rules : List GRule) : WhenRule :=
  { condition := condition, rules := rules, elseRules := [] }

/-- `WhenRule.Validate` of src/struct.go lines 311-317. -/
def WhenRule.Validate (r : WhenRule) (ctx : Option GoCtx) (value : GoVal) :
    Option VErr :=
  if r.condition then ValidateWithContext ctx value r.rules
  else ValidateWithContext ctx value r.elseRules

/-- `WhenRule.Else` of src/struct.go lines 320-323. -/
def WhenRule.Else (r : WhenRule) (rules : List GRule) : WhenRule :=
  { r with elseRules := rules }

/-- The `structPtr` argument of `ValidateStructWithContext` as classified by
src/struct.go lines 54-62: not a pointer at all, a nil pointer, a non-nil
pointer to a struct, or a non-nil pointer to a non-struct value. -/
inductive StructArg where
  | notPtr
  | nilPtr
  | ptrToStruct (sv : StructVal)
  | ptrToNonStruct

/-- A `fieldPtr` argument: not a pointer, a pointer to field number `i` of
the struct being validated, or a pointer that addresses no field of it
(e.g. a pointer into a different instance).  This abstracts the
address-and-type comparison of `findStructField`. -/
inductive FieldPtr where
  | notPtr
  | ptrIdx (i : Nat)
  | dangling
deriving Repr, DecidableEq

/-- `FieldRules` of src/struct.go lines 26-32 (the struct-based rule set the
struct.go engine consumes). -/
structure FieldRulesS where
  name : String
  isNamedField : Bool
  fieldPtr : FieldPtr
  rules : List GRule
  validatePtrValue : Bool

/-- The field resolution of src/struct.go lines 71-95: named fields go
through `getOpts(ctx).findStructFieldByNameFunc` (failure is
`NewInternalError(ErrFieldNotFound(i))`); pointer fields must be pointers
(`NewInternalError(ErrFieldPointer(i))`) and must address a field of the
struct (`NewInternalError(ErrFieldNotFound(i))`).  Struct fields obtained
from a pointer to the struct are addressable, so the `CanAddr` failure
branch is unreachable here and not modelled. -/
def resolveFieldOld (opts : GoOptions) (sv : StructVal) (fr : FieldRulesS)
    (i : Nat) : Except VErr GoStructField :=
  if fr.isNamedField then
    match opts.findStructFieldByNameFunc sv fr.name with
    | none => .error (.internal (some (.fieldNotFound i)))
    | some f => .ok f
  else
    match fr.fieldPtr with
    | .notPtr => .error (.internal (some (.fieldPointer i)))
    | .dangling => .error (.internal (some (.fieldNotFound i)))
    | .ptrIdx j =>
        match sv.fields.get? j with
        | none => .error (.internal (some (.fieldNotFound i)))
        | some f => .ok f

/-- src/struct.go lines 97-102: validate the dereferenced field value, or
the pointer to the field when `validatePtrValue` is set. -/
def extractValue (f : GoStructField) (validatePtrValue : Bool) : GoVal :=
  if validatePtrValue then .ptrTo f.value else f.value

/-- The per-locator loop of `ValidateStructWithContext`
(src/struct.go lines 67-119) with the explicit loop index and the `errs`
accumulator: resolution failures return immediately; a validation error
that is an `InternalError` with a cause aborts the call; an error of an
anonymous field that is an `Errors` map is merged into the aggregate;
any other error is keyed by `getOpts(ctx).getErrorFieldNameFunc(ft)`. -/
def structLoop (ctx : Option GoCtx) (sv : StructVal) :
    List FieldRulesS → Nat → List (String × VErr) → Option VErr
  | [], _, errs => if errs.isEmpty then none else some (.errs errs)
  | fr :: rest, i, errs =>
      match resolveFieldOld (getOpts ctx) sv fr i with
      | .error e => some e
      | .ok f =>
          match ValidateWithContext ctx (extractValue f fr.validatePtrValue) fr.rules with
          | none => structLoop ctx sv rest (i + 1) errs
          | some err =>
              if isInternalWithCause err then some err
              else if f.sf.anonymous then
                match err with
                | .errs es => structLoop ctx sv rest (i + 1) (mergeErrs errs es)
                | _ =>
                    structLoop ctx sv rest (i + 1)
                      (insertErr errs ((getOpts ctx).getErrorFieldNameFunc f.sf) err)
              else
                structLoop ctx sv rest (i + 1)
                  (insertErr errs ((getOpts ctx).getErrorFieldNameFunc f.sf) err)

/-- `ValidateStructWithContext` of src/struct.go lines 49-125. -/
def ValidateStructWithContext (ctx : Option GoCtx) (structPtr : StructArg)
    (fields : List FieldRulesS) : Option VErr :=
  match structPtr with
  | .notPtr => some (.internal (some errStructPointer))
  | .ptrToNonStruct => some (.internal (some errStructPointer))
  | .nilPtr => none
  | .ptrToStruct sv => structLoop ctx sv fields 0 []

/-- `NamedFieldRules` of src/unnamed/part_001 lines 49-54. -/
structure NamedFieldRules where
  name : String
  rules : List GRule
  validatePtrValue : Bool
  skipIfNotFound : Bool

/-- `NamedFieldRules.FindStructField` of src/unnamed/part_001 lines 84-114:
normalise the name, look the field up by name (`FieldByName` modelled as a
flat search), and on failure return `ErrSkipFieldNotFound` when the skip
flag is set, else `ErrFieldRequired.SetParams({"field_name": name})`. -/
def NamedFieldRules.FindStructField (n : NamedFieldRules) (sv : StructVal)
    (_idx : Nat) : Except VErr (GoStructField × GoVal) :=
  let name := toFieldName n.name
  match sv.fields.find? (fun f => f.sf.name == name) with
  | some f =>
      let value := if !n.validatePtrValue then f.value else .ptrTo f.value
      .ok (f, value)
  | none =>
      if n.skipIfNotFound then .error .skipFieldNotFound
      else
        .error (.verr "validation_field_required"
          "missing required field: \x7b\x7b.field_name\x7d\x7d"
          [("field_name", n.name)])

/-- `PointerFieldRules` of src/unnamed/part_001 lines 151-155. -/
structure PointerFieldRules where
  fieldPtr : FieldPtr
  rules : List GRule
  validatePtrValue : Bool

/-- `PointerFieldRules.FindStructField` of src/unnamed/part_001
lines 163-182. -/
def PointerFieldRules.FindStructField (p : PointerFieldRules) (sv : StructVal)
    (idx : Nat) : Except VErr (GoStructField × GoVal) :=
  match p.fieldPtr with
  | .notPtr => .error (.internal (some (.fieldPointer idx)))
  | .dangling => .error (.internal (some (.fieldNotFound idx)))
  | .ptrIdx j =>
      match sv.fields.get? j with
      | none => .error (.internal (some (.fieldNotFound idx)))
      | some f =>
          let value := if !p.validatePtrValue then f.value else .ptrTo f.value
          .ok (f, value)

/-- The `FieldRules` interface of src/unnamed/part_001 lines 32-35, with its
two implementations. -/
inductive FieldRulesI where
  | named (n : NamedFieldRules)
  | ptr (p : PointerFieldRules)

/-- The `Rules()` method of the two implementations. -/
def FieldRulesI.rules : FieldRulesI → List GRule
  | .named n => n.rules
  | .ptr p => p.rules

/-- Interface dispatch of `FindStructField`. -/
def FieldRulesI.FindStructField : FieldRulesI → StructVal → Nat →
    Except VErr (GoStructField × GoVal)
  | .named n => n.FindStructField
  | .ptr p => p.FindStructField

/-- Modelled from the spec (§4.4 step 2, §7): wrap a non-skip resolution
failure as the `InternalError` that aborts the record validation call
("otherwise resolution failure is an `InternalError` that aborts the whole
call immediately"); a failure that is already an `InternalError` (the
pointer-locator failures of part_001) is kept as is. -/
def mkInternal : VErr → VErr
  | .internal c => .internal c
  | e => .internal (some e)

/-- Modelled from the spec: the per-locator loop of the repository's current
`ValidateStructWithContext`, the consumer of the `FieldRules` interface of
src/unnamed/part_001.  That consumer is code of this repository that is not
under src/ — only its declarations (part_001) and its tests
(src/field_test.go, which exercises skip-if-not-found through
`ValidateStructWithContext`) are.  Per spec §4.4: resolve each locator with
its `FindStructField`; `ErrSkipFieldNotFound` means "skip this locator
entirely and continue to the next, no error recorded"; any other resolution
failure is an `InternalError` aborting the whole call immediately (not
aggregated); otherwise validate the extracted value with the locator's
rules and aggregate errors exactly as the struct.go engine does (spec §4.4
step 5). -/
def structLoopFR (ctx : Option GoCtx) (sv : StructVal) :
    List FieldRulesI → Nat → List (String × VErr) → Option VErr
  | [], _, errs => if errs.isEmpty then none else some (.errs errs)
  | fr :: rest, i, errs =>
      match fr.FindStructField sv i with
      | .error e =>
          if isSkipFieldNotFound e then structLoopFR ctx sv rest (i + 1) errs
          else some (mkInternal e)
      | .ok (f, value) =>
          match ValidateWithContext ctx value fr.rules with
          | none => structLoopFR ctx sv rest (i + 1) errs
          | some err =>
              if isInternalWithCause err then some err
              else if f.sf.anonymous then
                match err with
                | .errs es => structLoopFR ctx sv rest (i + 1) (mergeErrs errs es)
                | _ =>
                    structLoopFR ctx sv rest (i + 1)
                      (insertErr errs ((getOpts ctx).getErrorFieldNameFunc f.sf) err)
              else
                structLoopFR ctx sv rest (i + 1)
                  (insertErr errs ((getOpts ctx).getErrorFieldNameFunc f.sf) err)

/-- Modelled from the spec: the entry point of the `FieldRules`-interface
record engine (same preconditions as src/struct.go lines 49-63, which the
spec restates in §4.4). -/
def validateStructFieldRules (ctx : Option GoCtx) (structPtr : StructArg)
    (fields : List FieldRulesI) : Option VErr :=
  match structPtr with
  | .notPtr => some (.internal (some errStructPointer))
  | .ptrToNonStruct => some (.internal (some errStructPointer))
  | .nilPtr => none
  | .ptrToStruct sv => structLoopFR ctx sv fields 0 []

/-- The data of an `options` value of src/option.go (2-field version, the
one whose `WithOptions` is at lines 74-90).  The two function fields are
modelled by abstract identifiers, since the claims about `WithOptions`
concern copying and sharing of the bundle, not the behaviour of the
functions it holds. -/
structure OptVals where
  valuerFunc : Nat
  getErrorFieldNameFunc : Nat
deriving Repr, DecidableEq

/-- `defaultOptions` of src/option.go lines 31-34 (the process-wide
singleton, stored at cell 0 of the store). -/
def defaultOptVals : OptVals :=
  { valuerFunc := 0, getErrorFieldNameFunc := 1 }

/-- An `Option` setter (src/option.go lines 43-53): `WithValuerFunc` and
`WithGetErrorFieldNameFunc` each overwrite one field of the options value
they are applied to. -/
inductive OOption where
  | setValuerFunc (f : Nat)
  | setGetErrorFieldNameFunc (f : Nat)
deriving Repr, DecidableEq

/-- `opt(o2)`: apply one setter to an options value. -/
def applyOOption (o : OptVals) : OOption → OptVals
  | .setValuerFunc f => { o with valuerFunc := f }
  | .setGetErrorFieldNameFunc f => { o with getErrorFieldNameFunc := f }

/-- The heap of `*options` cells: the pointer `p` denotes cell `p` of the
store; `defaultOptions` lives at cell 0 and lookups of unallocated cells
fall back to it (they never occur along the modelled operations). -/
def storeGet (st : List OptVals) (p : Nat) : OptVals :=
  (st.get? p).getD defaultOptVals

/-- A context as `WithOptions`/`getOpts` observe it: `Background`, or a
`context.WithValue(parent, optionsCtxKey, o2)` node holding the pointer to
an options cell. -/
inductive OCtx where
  | background
  | withValueOptions (parent : OCtx) (p : Nat)
deriving Repr, DecidableEq

/-- The pointer `getOpts(ctx)` dereferences: the nearest options node's
cell, or cell 0 (`defaultOptions`) for a nil or options-free context. -/
def getOptsPtr : Option OCtx → Nat
  | none => 0
  | some .background => 0
  | some (.withValueOptions _ p) => p

/-- The options value a context observes: `*getOpts(ctx)`. -/
def getOptions (st : List OptVals) (ctx : Option OCtx) : OptVals :=
  storeGet st (getOptsPtr ctx)

/-- `WithOptions` of src/option.go lines 74-90: read the current options,
allocate a fresh cell (`o2 := new(options)`), copy the current value into
it (`*o2 = *o`), apply each setter to the fresh cell, and return a new
context node holding the fresh pointer (nil contexts are normalised to
`Background` first). -/
def WithOptions (st : List OptVals) (ctx : Option OCtx)
    (opts : List OOption) : List OptVals × OCtx :=
  let o := getOptions st ctx
  let o2 := opts.foldl applyOOption o
  let st' := st ++ [o2]
  let base := ctx.getD .background
  (st', .withValueOptions base st.length)

/-- Whether a result is a non-nil but entry-less `Errors` aggregate — the
shape the engine must never return (spec §3 invariant). -/
def isEmptyErrorsRes : Option VErr → Bool
  | some (.errs []) => true
  | _ => false

/-- A rule that accepts every value (analogous to the always-nil test rules
of the repository's test files). -/
def rulePass : GRule := .rule (fun _ _ => none)

/-- A rule failing on every value with a fixed message (analogous to the
`validateAbc`/`validateXyz` test rules). -/
def ruleFailWith (msg : String) : GRule := .rule (fun _ _ => some (.str msg))

/-- A `Required`-style test rule: accepts nil pointers and the nil
interface, rejects everything else with a fixed message. -/
def ruleNonNilPass (msg : String) : GRule :=
  .rule (fun _ v =>
    match v with
    | .nilPtr _ => none
    | .nilV => none
    | _ => some (.str msg))

/- Theorems. -/

/-- Helper: when every rule before `r` is not the `Skip` marker and passes,
and `r` fails with `e`, the rule loop stops at `r` with `e`, whatever comes
after `r`. -/
theorem runRules_first_fail (c : GoCtx) (v : GoVal) :
    ∀ (pre : List GRule) (r : GRule) (e : VErr) (post : List GRule),
    (∀ r' ∈ pre, isSkipTrue r' = false ∧ GRule.Validate r' c v = none) →
    GRule.Validate r c v = some e →
    runRules c v (pre ++ r :: post) = .failed e := by
  intro pre
  induction pre with
  | nil =>
    intro r e post _ hr
    cases r with
    | skipR s => simp [GRule.Validate] at hr
    | rule f =>
      simp only [List.nil_append, runRules, isSkipTrue, Bool.false_eq_true,
        if_false]
      simp only [GRule.Validate] at hr
      simp [GRule.Validate, hr]
  | cons r' pre ih =>
    intro r e post hpre hr
    have h' := hpre r' (List.mem_cons_self r' pre)
    simp only [List.cons_append, runRules, h'.1, h'.2, Bool.false_eq_true,
      if_false]
    exact ih r e post (fun x hx => hpre x (List.mem_cons_of_mem r' hx)) hr

/-- C1.  `ValidateWithContext` runs the rules in list order and returns the
first failing rule's error unchanged; once a rule has failed, the rules
after it, the value's self-validation and the collection recursion have no
influence on the result (the result is the same for every choice of later
rules, and is the rule's error rather than anything the dispatch on the
value could produce). -/
theorem claim_C1_rule_short_circuit (ctx : Option GoCtx) (v : GoVal)
    (pre : List GRule) (r : GRule) (e : VErr)
    (hpre : ∀ r' ∈ pre, isSkipTrue r' = false ∧
      GRule.Validate r' (ctx.getD .background) v = none)
    (hr : GRule.Validate r (ctx.getD .background) v = some e) :
    ∀ post : List GRule, ValidateWithContext ctx v (pre ++ r :: post) = some e := by
  intro post
  unfold ValidateWithContext
  rw [runRules_first_fail (ctx.getD .background) v pre r e post hpre hr]

/-- Witness for C1: with rules `[pass, fail "boom", X]` the result is the
error of `fail "boom"` both when `X` would fail with another error and when
`X` would pass — the later rule is irrelevant. -/
theorem claim_C1_rule_short_circuit_witness :
    ValidateWithContext none (.basic "x")
      ([rulePass] ++ ruleFailWith "boom" :: [ruleFailWith "later"]) = some (.str "boom") ∧
    ValidateWithContext none (.basic "x")
      ([rulePass] ++ ruleFailWith "boom" :: [rulePass]) = some (.str "boom") := by
  have h := claim_C1_rule_short_circuit none (.basic "x") [rulePass]
    (ruleFailWith "boom") (.str "boom")
    (by
      intro r' hr'
      rw [List.mem_singleton] at hr'
      subst hr'
      exact ⟨rfl, rfl⟩)
    rfl
  exact ⟨h [ruleFailWith "later"], h [rulePass]⟩

/-- Helper: when every rule before the dispatched `Skip` marker returns nil
from its `Validate`, the rule loop ends in the early-nil outcome. -/
theorem runRules_reach_skip (c : GoCtx) (v : GoVal) :
    ∀ (pre post : List GRule),
    (∀ r' ∈ pre, GRule.Validate r' c v = none) →
    runRules c v (pre ++ GRule.skipR Skip :: post) = .earlyNil := by
  intro pre
  induction pre with
  | nil =>
    intro post _
    simp [runRules, isSkipTrue, Skip]
  | cons r' pre ih =>
    intro post hpre
    have h' := hpre r' (List.mem_cons_self r' pre)
    by_cases hs : isSkipTrue r' = true
    · simp [runRules, hs]
    · simp only [Bool.not_eq_true] at hs
      simp only [List.cons_append, runRules, hs, Bool.false_eq_true, if_false, h']
      exact ih post (fun x hx => hpre x (List.mem_cons_of_mem r' hx))

/-- C2.  When the dispatch reaches the `Skip` marker (its flag set), the
whole validation returns success, bypassing every later rule as well as
self-validation and collection recursion; `validate(v, Skip, r)` succeeds
for every `v` and `r`; and `Skip.When(false)` is not recognised as the
marker and acts as a no-op rule. -/
theorem claim_C2_skip_marker (ctx : Option GoCtx) (v : GoVal) :
    (∀ pre post : List GRule,
       (∀ r' ∈ pre, GRule.Validate r' (ctx.getD .background) v = none) →
       ValidateWithContext ctx v (pre ++ GRule.skipR Skip :: post) = none)
    ∧ (∀ r : GRule, ValidateWithContext ctx v (GRule.skipR Skip :: [r]) = none)
    ∧ isSkipTrue (GRule.skipR (Skip.When false)) = false
    ∧ (∀ rest : List GRule,
       ValidateWithContext ctx v (GRule.skipR (Skip.When false) :: rest) =
         ValidateWithContext ctx v rest) := by
  refine ⟨?_, ?_, rfl, ?_⟩
  · intro pre post hpre
    unfold ValidateWithContext
    rw [runRules_reach_skip (ctx.getD .background) v pre post hpre]
  · intro r
    unfold ValidateWithContext
    simp [runRules, isSkipTrue, Skip]
  · intro rest
    unfold ValidateWithContext
    simp [runRules, isSkipTrue, Skip, skipRule.When, GRule.Validate]

/-- Witness for C2: `Skip` placed before a failing rule yields success, and
`Skip.When(false)` before a failing rule leaves the failure visible. -/
theorem claim_C2_skip_marker_witness :
    ValidateWithContext none (.basic "x")
      ([rulePass] ++ GRule.skipR Skip :: [ruleFailWith "boom"]) = none ∧
    ValidateWithContext none (.basic "x")
      (GRule.skipR (Skip.When false) :: [ruleFailWith "boom"]) = some (.str "boom") := by
  refine ⟨?_, ?_⟩
  · exact (claim_C2_skip_marker none (.basic "x")).1 [rulePass] [ruleFailWith "boom"]
      (by
        intro r' hr'
        rw [List.mem_singleton] at hr'
        subst hr'
        rfl)
  · rw [(claim_C2_skip_marker none (.basic "x")).2.2.2 [ruleFailWith "boom"]]
    rfl

/-- C5.  `ValidateStructWithContext` requires a pointer argument: a nil
pointer is vacuously valid (no locator is visited, whatever `fields`
holds), while a non-pointer argument or a pointer to a non-struct value
yields an `InternalError` wrapping `ErrStructPointer`. -/
theorem claim_C5_struct_pointer_precondition (ctx : Option GoCtx)
    (fields : List FieldRulesS) :
    ValidateStructWithContext ctx .notPtr fields =
        some (.internal (some errStructPointer))
    ∧ ValidateStructWithContext ctx .ptrToNonStruct fields =
        some (.internal (some errStructPointer))
    ∧ ValidateStructWithContext ctx .nilPtr fields = none :=
  ⟨rfl, rfl, rfl⟩

/-- C10.  `When(false, rules...)` with no `Else` list is not a pure no-op:
its `Validate` re-enters the dispatch with an empty rule list, so the
value's self-validation (and collection recursion) still runs; in
particular a failing `Validatable` value surfaces its own error through
`When(false, ...)`. -/
theorem claim_C10_when_false_not_noop (ctx : Option GoCtx)
    (rules : List GRule) (v : GoVal) :
    (When false rules).Validate ctx v = ValidateWithContext ctx v []
    ∧ ValidateWithContext ctx v [] = dispatchAfterRules (ctx.getD .background) v
    ∧ (∀ res : Option VErr,
        (When false rules).Validate ctx (.validatable res) = res)
    ∧ (∀ entries, (When false rules).Validate ctx (.mapV entries) =
        validateMap (ctx.getD .background) entries) :=
  ⟨rfl, rfl, fun _ => rfl, fun _ => rfl⟩

/-- Helper: when every rule returns nil from its `Validate`, the rule loop
either passes or ends early at a `Skip` marker. -/
theorem runRules_all_none (c : GoCtx) (v : GoVal) :
    ∀ rules : List GRule, (∀ r ∈ rules, GRule.Validate r c v = none) →
    runRules c v rules = .passed ∨ runRules c v rules = .earlyNil := by
  intro rules
  induction rules with
  | nil => intro _; exact Or.inl rfl
  | cons r rest ih =>
    intro h
    by_cases hs : isSkipTrue r = true
    · right
      simp [runRules, hs]
    · simp only [Bool.not_eq_true] at hs
      have hr := h r (List.mem_cons_self r rest)
      simp only [runRules, hs, Bool.false_eq_true, if_false, hr]
      exact ih (fun x hx => h x (List.mem_cons_of_mem r hx))

/-- C8.  A nil pointer (even one whose type would satisfy `Validatable`,
recorded in `sv`) and the nil interface are valid once all rules pass: the
dispatch returns success without consulting the self-validation capability
of the nil value. -/
theorem claim_C8_nil_is_valid (ctx : Option GoCtx) (rules : List GRule)
    (sv : Option (Option VErr))
    (h1 : ∀ r ∈ rules, GRule.Validate r (ctx.getD .background) (.nilPtr sv) = none)
    (h2 : ∀ r ∈ rules, GRule.Validate r (ctx.getD .background) .nilV = none) :
    ValidateWithContext ctx (.nilPtr sv) rules = none ∧
    ValidateWithContext ctx .nilV rules = none := by
  constructor
  · unfold ValidateWithContext
    rcases runRules_all_none (ctx.getD .background) (.nilPtr sv) rules h1 with h | h <;>
        rw [h] <;>
      rfl
  · unfold ValidateWithContext
    rcases runRules_all_none (ctx.getD .background) .nilV rules h2 with h | h <;>
        rw [h] <;>
      rfl

/-- Witness for C8: a nil pointer whose self-validation would fail still
validates to success under a rule list that accepts nil. -/
theorem claim_C8_nil_is_valid_witness :
    ValidateWithContext none (.nilPtr (some (some (.str "selfErr"))))
      [ruleNonNilPass "len"] = none ∧
    ValidateWithContext none .nilV [ruleNonNilPass "len"] = none :=
  claim_C8_nil_is_valid none [ruleNonNilPass "len"] (some (some (.str "selfErr")))
    (by
      intro r hr
      rw [List.mem_singleton] at hr
      subst hr
      rfl)
    (by
      intro r hr
      rw [List.mem_singleton] at hr
      subst hr
      rfl)

/-- Helper: inserting into the `Errors` association list never yields the
empty list. -/
theorem insertErr_ne_nil (m : List (String × VErr)) (k : String) (e : VErr) :
    insertErr m k e ≠ [] := by
  cases m with
  | nil => simp [insertErr]
  | cons p rest =>
    obtain ⟨k', e'⟩ := p
    simp only [insertErr]
    split <;> simp

/-- Helper: the keys present after an insertion are the inserted key plus
the keys already present. -/
theorem insertErr_mem_key (m : List (String × VErr)) (k k' : String) (e : VErr) :
    (∃ x, (k', x) ∈ insertErr m k e) ↔ k' = k ∨ ∃ x, (k', x) ∈ m := by
  induction m with
  | nil => simp [insertErr]
  | cons p rest ih =>
    obtain ⟨k₀, e₀⟩ := p
    simp only [insertErr]
    by_cases h : k₀ = k
    · subst h
      simp only [beq_self_eq_true, if_true, List.mem_cons, Prod.mk.injEq]
      constructor
      · rintro ⟨x, ⟨hk, _⟩ | hx⟩
        · exact Or.inl hk
        · exact Or.inr ⟨x, Or.inr hx⟩
      · rintro (hk | ⟨x, ⟨hk, _⟩ | hx⟩)
        · exact ⟨e, Or.inl ⟨hk, rfl⟩⟩
        · exact ⟨e, Or.inl ⟨hk, rfl⟩⟩
        · exact ⟨x, Or.inr hx⟩
    · rw [if_neg (by simpa using h)]
      simp only [List.mem_cons, Prod.mk.injEq]
      constructor
      · rintro ⟨x, ⟨hk, hx0⟩ | hx⟩
        · exact Or.inr ⟨x, Or.inl ⟨hk, hx0⟩⟩
        · rcases ih.mp ⟨x, hx⟩ with hk | ⟨y, hy⟩
          · exact Or.inl hk
          · exact Or.inr ⟨y, Or.inr hy⟩
      · rintro (hk | ⟨x, ⟨hk, hx⟩ | hx⟩)
        · obtain ⟨y, hy⟩ := ih.mpr (Or.inl hk)
          exact ⟨y, Or.inr hy⟩
        · exact ⟨e₀, Or.inl ⟨hk, rfl⟩⟩
        · obtain ⟨y, hy⟩ := ih.mpr (Or.inr ⟨x, hx⟩)
          exact ⟨y, Or.inr hy⟩

/-- Helper: an association list is empty iff no key is present. -/
theorem pairs_eq_nil_iff (l : List (String × VErr)) :
    l = [] ↔ ∀ k : String, ¬∃ x, (k, x) ∈ l := by
  constructor
  · rintro rfl k ⟨x, hx⟩
    simp at hx
  · intro h
    cases l with
    | nil => rfl
    | cons p rest => exact absurd ⟨p.2, List.mem_cons_self p rest⟩ (h p.1)

/-- Helper: a key is present in the map-validation accumulator iff it was
already present or some non-nil entry fails and renders to it. -/
theorem validateMapLoop_mem (c : GoCtx) :
    ∀ (entries : List (GoKey × MapElem)) (errs : List (String × VErr)) (k : String),
    (∃ x, (k, x) ∈ validateMapLoop c entries errs) ↔
      (∃ x, (k, x) ∈ errs) ∨
        ∃ gk er, (gk, MapElem.melem (some er)) ∈ entries ∧ gk.render = k := by
  intro entries
  induction entries with
  | nil =>
    intro errs k
    simp [validateMapLoop]
  | cons p rest ih =>
    obtain ⟨gk, me⟩ := p
    intro errs k
    cases me with
    | nilIfaceM =>
      simp only [validateMapLoop]
      rw [ih]
      simp only [List.mem_cons, Prod.mk.injEq]
      constructor
      · rintro (h | ⟨gk', er, hm, hr⟩)
        · exact Or.inl h
        · exact Or.inr ⟨gk', er, Or.inr hm, hr⟩
      · rintro (h | ⟨gk', er, ⟨hgk, hme⟩ | hm, hr⟩)
        · exact Or.inl h
        · exact absurd hme (by simp)
        · exact Or.inr ⟨gk', er, hm, hr⟩
    | melem res =>
      cases res with
      | none =>
        simp only [validateMapLoop]
        rw [ih]
        simp only [List.mem_cons, Prod.mk.injEq]
        constructor
        · rintro (h | ⟨gk', er, hm, hr⟩)
          · exact Or.inl h
          · exact Or.inr ⟨gk', er, Or.inr hm, hr⟩
        · rintro (h | ⟨gk', er, ⟨hgk, hme⟩ | hm, hr⟩)
          · exact Or.inl h
          · exact absurd hme (by simp)
          · exact Or.inr ⟨gk', er, hm, hr⟩
      | some e =>
        simp only [validateMapLoop]
        rw [ih, insertErr_mem_key]
        simp only [List.mem_cons, Prod.mk.injEq]
        constructor
        · rintro ((hk | h) | ⟨gk', er, hm, hr⟩)
          · exact Or.inr ⟨gk, e, Or.inl ⟨rfl, rfl⟩, hk.symm⟩
          · exact Or.inl h
          · exact Or.inr ⟨gk', er, Or.inr hm, hr⟩
        · rintro (h | ⟨gk', er, ⟨hgk, hme⟩ | hm, hr⟩)
          · exact Or.inl (Or.inr h)
          · refine Or.inl (Or.inl ?_)
            rw [← hr, hgk]
          · exact Or.inr ⟨gk', er, hm, hr⟩

/-- Helper: index-shift for the slice failure predicate over a head element
that cannot fail. -/
theorem slice_fail_cons_ne (x : SElem) (hx : ∀ er, x ≠ .elemE (some er))
    (rest : List SElem) (i : Nat) (k : String) :
    (∃ j er, (x :: rest).get? j = some (.elemE (some er)) ∧ k = toString (i + j)) ↔
      ∃ j er, rest.get? j = some (.elemE (some er)) ∧ k = toString (i + 1 + j) := by
  constructor
  · rintro ⟨j, er, hj, hk⟩
    cases j with
    | zero =>
      rw [List.get?_cons_zero, Option.some_inj] at hj
      exact absurd hj (hx er)
    | succ j =>
      refine ⟨j, er, by simpa using hj, ?_⟩
      rw [hk]
      congr 1
      omega
  · rintro ⟨j, er, hj, hk⟩
    refine ⟨j + 1, er, by simpa using hj, ?_⟩
    rw [hk]
    congr 1
    omega

/-- Helper: index-shift for the slice failure predicate over a failing head
element. -/
theorem slice_fail_cons_elem (e : VErr) (rest : List SElem) (i : Nat) (k : String) :
    (∃ j er, (SElem.elemE (some e) :: rest).get? j = some (.elemE (some er)) ∧
        k = toString (i + j)) ↔
      (k = toString i ∨
        ∃ j er, rest.get? j = some (.elemE (some er)) ∧ k = toString (i + 1 + j)) := by
  constructor
  · rintro ⟨j, er, hj, hk⟩
    cases j with
    | zero =>
      left
      rw [hk, Nat.add_zero]
    | succ j =>
      right
      refine ⟨j, er, by simpa using hj, ?_⟩
      rw [hk]
      congr 1
      omega
  · rintro (hk | ⟨j, er, hj, hk⟩)
    · exact ⟨0, e, rfl, by rw [hk, Nat.add_zero]⟩
    · refine ⟨j + 1, er, by simpa using hj, ?_⟩
      rw [hk]
      congr 1
      omega

/-- Helper: a key is present in the slice-validation accumulator iff it was
already present or some element at offset `j` fails, keyed by
`strconv.Itoa(i + j)`. -/
theorem validateSliceLoop_mem (c : GoCtx) :
    ∀ (elems : List SElem) (i : Nat) (errs : List (String × VErr)) (k : String),
    (∃ x, (k, x) ∈ validateSliceLoop c i elems errs) ↔
      (∃ x, (k, x) ∈ errs) ∨
        ∃ j er, elems.get? j = some (.elemE (some er)) ∧ k = toString (i + j) := by
  intro elems
  induction elems with
  | nil =>
    intro i errs k
    simp [validateSliceLoop]
  | cons el rest ih =>
    intro i errs k
    cases el with
    | nilPtrE =>
      simp only [validateSliceLoop]
      rw [ih, slice_fail_cons_ne _ (by intro er h; cases h) rest i k]
    | nilIfaceE =>
      simp only [validateSliceLoop]
      rw [ih, slice_fail_cons_ne _ (by intro er h; cases h) rest i k]
    | elemE res =>
      cases res with
      | none =>
        simp only [validateSliceLoop]
        rw [ih, slice_fail_cons_ne _ (by intro er h; simp at h) rest i k]
      | some e =>
        simp only [validateSliceLoop]
        rw [ih, insertErr_mem_key, slice_fail_cons_elem e rest i k]
        tauto

/-- Helper: the map-validation accumulator (started empty) is empty iff no
non-nil entry fails. -/
theorem validateMapLoop_nil_iff (c : GoCtx) (entries : List (GoKey × MapElem)) :
    validateMapLoop c entries [] = [] ↔
      ¬∃ gk er, (gk, MapElem.melem (some er)) ∈ entries := by
  rw [pairs_eq_nil_iff]
  constructor
  · rintro h ⟨gk, er, hm⟩
    exact (h gk.render)
      ((validateMapLoop_mem c entries [] gk.render).mpr (Or.inr ⟨gk, er, hm, rfl⟩))
  · rintro h k ⟨x, hx⟩
    rcases (validateMapLoop_mem c entries [] k).mp ⟨x, hx⟩ with ⟨y, hy⟩ | ⟨gk, er, hm, hr⟩
    · simp at hy
    · exact h ⟨gk, er, hm⟩

/-- Helper: the slice-validation accumulator (started empty, index 0) is
empty iff no element fails. -/
theorem validateSliceLoop_nil_iff (c : GoCtx) (elems : List SElem) :
    validateSliceLoop c 0 elems [] = [] ↔
      ¬∃ j er, elems.get? j = some (.elemE (some er)) := by
  rw [pairs_eq_nil_iff]
  constructor
  · rintro h ⟨j, er, hj⟩
    exact (h (toString (0 + j)))
      ((validateSliceLoop_mem c elems 0 [] (toString (0 + j))).mpr
        (Or.inr ⟨j, er, hj, rfl⟩))
  · rintro h k ⟨x, hx⟩
    rcases (validateSliceLoop_mem c elems 0 [] k).mp ⟨x, hx⟩ with ⟨y, hy⟩ | ⟨j, er, hj, _⟩
    · simp at hy
    · exact h ⟨j, er, hj⟩

/-- C3.  Dispatching a map of validatable elements succeeds iff no non-nil
entry fails, and when it fails the keys of the returned `Errors` are
exactly the textual renderings of the failing entries' keys; dispatching a
slice of validatable elements succeeds iff no element fails (nil elements
are skipped), and the keys of the returned `Errors` are exactly the
zero-based decimal indices of the failing elements. -/
theorem claim_C3_collection_aggregation (ctx : Option GoCtx)
    (entries : List (GoKey × MapElem)) (elems : List SElem) :
    (ValidateWithContext ctx (.mapV entries) [] = none ↔
       ¬∃ gk er, (gk, MapElem.melem (some er)) ∈ entries)
    ∧ (∀ m, ValidateWithContext ctx (.mapV entries) [] = some (.errs m) →
         ∀ k, (∃ x, (k, x) ∈ m) ↔
           ∃ gk er, (gk, MapElem.melem (some er)) ∈ entries ∧ gk.render = k)
    ∧ (ValidateWithContext ctx (.sliceV elems) [] = none ↔
       ¬∃ j er, elems.get? j = some (.elemE (some er)))
    ∧ (∀ m, ValidateWithContext ctx (.sliceV elems) [] = some (.errs m) →
         ∀ k, (∃ x, (k, x) ∈ m) ↔
           ∃ j er, elems.get? j = some (.elemE (some er)) ∧ k = toString j) := by
  have hmap : ValidateWithContext ctx (.mapV entries) [] =
      validateMap (ctx.getD .background) entries := rfl
  have hslice : ValidateWithContext ctx (.sliceV elems) [] =
      validateSlice (ctx.getD .background) elems := rfl
  refine ⟨?_, ?_, ?_, ?_⟩
  · rw [hmap]
    unfold validateMap
    by_cases hE : (validateMapLoop (ctx.getD .background) entries []).isEmpty = true
    · rw [if_pos hE]
      simp only [true_iff]
      exact (validateMapLoop_nil_iff _ entries).mp (List.isEmpty_iff.mp hE)
    · rw [if_neg hE]
      constructor
      · intro h
        cases h
      · intro h
        exact absurd ((validateMapLoop_nil_iff _ entries).mpr h)
          (by simpa [List.isEmpty_iff] using hE)
  · intro m hm k
    rw [hmap] at hm
    unfold validateMap at hm
    by_cases hE : (validateMapLoop (ctx.getD .background) entries []).isEmpty = true
    · rw [if_pos hE] at hm
      cases hm
    · rw [if_neg hE] at hm
      simp only [Option.some.injEq, VErr.errs.injEq] at hm
      rw [← hm, validateMapLoop_mem]
      simp
  · rw [hslice]
    unfold validateSlice
    by_cases hE : (validateSliceLoop (ctx.getD .background) 0 elems []).isEmpty = true
    · rw [if_pos hE]
      simp only [true_iff]
      exact (validateSliceLoop_nil_iff _ elems).mp (List.isEmpty_iff.mp hE)
    · rw [if_neg hE]
      constructor
      · intro h
        cases h
      · intro h
        exact absurd ((validateSliceLoop_nil_iff _ elems).mpr h)
          (by simpa [List.isEmpty_iff] using hE)
  · intro m hm k
    rw [hslice] at hm
    unfold validateSlice at hm
    by_cases hE : (validateSliceLoop (ctx.getD .background) 0 elems []).isEmpty = true
    · rw [if_pos hE] at hm
      cases hm
    · rw [if_neg hE] at hm
      simp only [Option.some.injEq, VErr.errs.injEq] at hm
      rw [← hm, validateSliceLoop_mem]
      simp [Nat.zero_add]

/-- Witness for C3: validating the slice `[bad, good, bad]` produces an
`Errors` whose keys include `"0"` and, via the theorem, correspond exactly
to failing indices; an all-good map validates to success. -/
theorem claim_C3_collection_aggregation_witness :
    ValidateWithContext none
      (.sliceV [.elemE (some (.str "e0")), .elemE none, .elemE (some (.str "e2"))])
      [] = some (.errs [("0", .str "e0"), ("2", .str "e2")]) ∧
    (∃ x, ("0", x) ∈ [("0", VErr.str "e0"), ("2", VErr.str "e2")]) ∧
    ValidateWithContext none (.mapV [(.str "a", .melem none)]) [] = none := by
  refine ⟨rfl, ?_, ?_⟩
  · exact ((claim_C3_collection_aggregation none []
      [.elemE (some (.str "e0")), .elemE none, .elemE (some (.str "e2"))]).2.2.2
      [("0", .str "e0"), ("2", .str "e2")] rfl "0").mpr ⟨0, .str "e0", rfl, rfl⟩
  · exact (claim_C3_collection_aggregation none [(.str "a", .melem none)] []).1.mpr
      (by rintro ⟨gk, er, hm⟩; simp at hm)

/-- Helper: the `if len(errs) > 0 then errs else nil` return shape never
produces a non-nil empty `Errors`. -/
theorem emptyErrs_if_shape (l : List (String × VErr)) :
    isEmptyErrorsRes (if l.isEmpty then none else some (.errs l)) = false := by
  cases l with
  | nil => rfl
  | cons p rest => rfl

/-- Helper: every resolution failure of the struct.go engine is an
`InternalError`. -/
theorem resolveFieldOld_error_internal (opts : GoOptions) (sv : StructVal)
    (fr : FieldRulesS) (i : Nat) (e : VErr)
    (h : resolveFieldOld opts sv fr i = .error e) : ∃ c, e = .internal c := by
  unfold resolveFieldOld at h
  split at h
  · split at h
    · injection h with h'
      exact ⟨_, h'.symm⟩
    · cases h
  · split at h
    · injection h with h'
      exact ⟨_, h'.symm⟩
    · injection h with h'
      exact ⟨_, h'.symm⟩
    · split at h
      · injection h with h'
        exact ⟨_, h'.symm⟩
      · cases h

/-- Helper: an `InternalError` with a cause is not an empty `Errors`. -/
theorem emptyErrs_of_internalWithCause (err : VErr)
    (h : isInternalWithCause err = true) : isEmptyErrorsRes (some err) = false := by
  cases err
  case internal c =>
    cases c
    case some => rfl
    case none => simp [isInternalWithCause] at h
  all_goals simp [isInternalWithCause] at h

/-- Helper: the struct.go field loop never returns a non-nil empty
`Errors`, whatever the accumulator holds. -/
theorem structLoop_no_emptyErrs (ctx : Option GoCtx) (sv : StructVal) :
    ∀ (frs : List FieldRulesS) (i : Nat) (errs : List (String × VErr)),
    isEmptyErrorsRes (structLoop ctx sv frs i errs) = false := by
  intro frs
  induction frs with
  | nil =>
    intro i errs
    exact emptyErrs_if_shape errs
  | cons fr rest ih =>
    intro i errs
    simp only [structLoop]
    split
    · rename_i e heq
      obtain ⟨c, rfl⟩ := resolveFieldOld_error_internal _ _ _ _ _ heq
      cases c with
      | some c => rfl
      | none => rfl
    · rename_i f heq
      split
      · exact ih (i + 1) errs
      · rename_i err hval
        split
        · rename_i hic
          exact emptyErrs_of_internalWithCause err hic
        · split
          · split
            · exact ih (i + 1) _
            · exact ih (i + 1) _
          · exact ih (i + 1) _

/-- C7.  No engine operation that builds an `Errors` map returns a non-nil
but empty aggregate: map element validation, slice element validation and
record field aggregation all map zero collected entries to success. -/
theorem claim_C7_no_empty_errors (ctx : Option GoCtx) (c : GoCtx)
    (entries : List (GoKey × MapElem)) (elems : List SElem)
    (arg : StructArg) (frs : List FieldRulesS) :
    isEmptyErrorsRes (validateMap c entries) = false
    ∧ isEmptyErrorsRes (validateSlice c elems) = false
    ∧ isEmptyErrorsRes (ValidateStructWithContext ctx arg frs) = false := by
  refine ⟨emptyErrs_if_shape _, emptyErrs_if_shape _, ?_⟩
  cases arg with
  | notPtr => rfl
  | ptrToNonStruct => rfl
  | nilPtr => rfl
  | ptrToStruct sv => exact structLoop_no_emptyErrs ctx sv frs 0 []

/-- C6.  When a locator's field validation fails with a non-internal error:
if the resolved field is anonymous and the error is an `Errors` map, its
entries are merged directly into the top-level aggregate (no nesting level
for the embedded record); otherwise the error is inserted under the key
produced by the configured error-key-naming function on the field's
metadata, whose default (`DefaultGetErrorFieldName`) yields the json tag's
name component when the tag provides one (non-empty, not `"-"`, non-empty
first comma-separated component) and the declared field name otherwise. -/
theorem claim_C6_anonymous_flattening (ctx : Option GoCtx) (sv : StructVal)
    (fr : FieldRulesS) (f : GoStructField) (err : VErr)
    (hres : resolveFieldOld (getOpts ctx) sv fr 0 = .ok f)
    (hval : ValidateWithContext ctx (extractValue f fr.validatePtrValue) fr.rules = some err)
    (hni : isInternalWithCause err = false) :
    (∀ es, f.sf.anonymous = true → err = .errs es →
       ValidateStructWithContext ctx (.ptrToStruct sv) [fr] =
         if (mergeErrs [] es).isEmpty then none
         else some (.errs (mergeErrs [] es)))
    ∧ (f.sf.anonymous = false →
       ValidateStructWithContext ctx (.ptrToStruct sv) [fr] =
         some (.errs [((getOpts ctx).getErrorFieldNameFunc f.sf, err)]))
    ∧ ((∀ es, err ≠ VErr.errs es) →
       ValidateStructWithContext ctx (.ptrToStruct sv) [fr] =
         some (.errs [((getOpts ctx).getErrorFieldNameFunc f.sf, err)]))
    ∧ (∀ sf : StructField, DefaultGetErrorFieldName sf = getErrorFieldName sf "json")
    ∧ (∀ sf : StructField,
        (tagGet sf.tags "json" ≠ "" → tagGet sf.tags "json" ≠ "-" →
         ((tagGet sf.tags "json").splitOn ",").headD "" ≠ "" →
         DefaultGetErrorFieldName sf = ((tagGet sf.tags "json").splitOn ",").headD "")
        ∧ ((tagGet sf.tags "json" = "" ∨ tagGet sf.tags "json" = "-" ∨
            ((tagGet sf.tags "json").splitOn ",").headD "" = "") →
           DefaultGetErrorFieldName sf = sf.name)) := by
  refine ⟨?_, ?_, ?_, fun sf => rfl, ?_⟩
  · intro es han herr
    subst herr
    show structLoop ctx sv [fr] 0 [] = _
    simp only [structLoop, hres, hval, hni, Bool.false_eq_true, if_false, han,
      if_true]
  · intro han
    show structLoop ctx sv [fr] 0 [] = _
    simp only [structLoop, hres, hval, hni, han, Bool.false_eq_true, if_false]
    rfl
  · intro hne
    show structLoop ctx sv [fr] 0 [] = _
    simp only [structLoop, hres, hval, hni, Bool.false_eq_true, if_false]
    by_cases han : f.sf.anonymous = true
    · simp only [han, if_true]
      cases err with
      | errs es => exact absurd rfl (hne es)
      | str m => rfl
      | verr c m p => rfl
      | internal c => rfl
      | fieldNotFound j => rfl
      | fieldPointer j => rfl
      | skipFieldNotFound => rfl
    · simp only [Bool.not_eq_true] at han
      simp only [han, Bool.false_eq_true, if_false]
      rfl
  · intro sf
    constructor
    · intro h1 h2 h3
      unfold DefaultGetErrorFieldName getErrorFieldName
      rw [if_pos (by simp only [Bool.and_eq_true, bne_iff_ne, ne_eq]; exact ⟨h1, h2⟩),
        if_pos (by simp only [bne_iff_ne, ne_eq]; exact h3)]
    · intro h
      unfold DefaultGetErrorFieldName getErrorFieldName
      rcases h with h | h | h
      · rw [if_neg (by simp [h])]
      · rw [if_neg (by simp [h])]
      · by_cases hb : (tagGet sf.tags "json" != "" && tagGet sf.tags "json" != "-") = true
        · rw [if_pos hb, if_neg (by rw [h]; simp)]
        · rw [if_neg hb]

/-- Witness for C6: a record whose only (anonymous) field fails with an
`Errors` map surfaces that map's entry at the top level, not nested. -/
theorem claim_C6_anonymous_flattening_witness :
    ValidateStructWithContext none
      (.ptrToStruct ⟨[⟨⟨"Inner", [], true⟩, .basic "v"⟩]⟩)
      [⟨"", false, .ptrIdx 0,
        [GRule.rule (fun _ _ => some (.errs [("X", .str "boom")]))], false⟩] =
      some (.errs [("X", .str "boom")]) := by
  have h := (claim_C6_anonymous_flattening none
    ⟨[⟨⟨"Inner", [], true⟩, .basic "v"⟩]⟩
    ⟨"", false, .ptrIdx 0,
      [GRule.rule (fun _ _ => some (.errs [("X", .str "boom")]))], false⟩
    ⟨⟨"Inner", [], true⟩, .basic "v"⟩ (.errs [("X", .str "boom")])
    rfl rfl rfl).1 [("X", .str "boom")] rfl rfl
  exact h

/-- C4.  In the `FieldRules`-interface record engine: a name-based locator
with the skip-if-not-found flag set whose resolution fails is skipped
entirely — the loop continues with the next locator, same accumulator, no
error recorded; any other resolution failure (name-based without the flag,
or a pointer locator that is not a pointer or addresses no field) is an
`InternalError` that aborts the whole call at once, regardless of the
remaining locators and of any errors already accumulated. -/
theorem claim_C4_locator_resolution_failure (ctx : Option GoCtx) (sv : StructVal)
    (n : NamedFieldRules) (p : PointerFieldRules) (rest : List FieldRulesI)
    (i : Nat) (errs : List (String × VErr)) :
    (n.skipIfNotFound = true →
       sv.fields.find? (fun f => f.sf.name == toFieldName n.name) = none →
       structLoopFR ctx sv (.named n :: rest) i errs =
         structLoopFR ctx sv rest (i + 1) errs)
    ∧ (n.skipIfNotFound = false →
       sv.fields.find? (fun f => f.sf.name == toFieldName n.name) = none →
       structLoopFR ctx sv (.named n :: rest) i errs =
         some (.internal (some (.verr "validation_field_required"
           "missing required field: \x7b\x7b.field_name\x7d\x7d"
           [("field_name", n.name)]))))
    ∧ (p.fieldPtr = .notPtr →
       structLoopFR ctx sv (.ptr p :: rest) i errs =
         some (.internal (some (.fieldPointer i))))
    ∧ (p.fieldPtr = .dangling →
       structLoopFR ctx sv (.ptr p :: rest) i errs =
         some (.internal (some (.fieldNotFound i)))) := by
  refine ⟨?_, ?_, ?_, ?_⟩
  · intro hskip hfind
    simp only [structLoopFR, FieldRulesI.FindStructField,
      NamedFieldRules.FindStructField, hfind, hskip, if_true,
      isSkipFieldNotFound]
  · intro hskip hfind
    simp only [structLoopFR, FieldRulesI.FindStructField,
      NamedFieldRules.FindStructField, hfind, hskip, Bool.false_eq_true,
      if_false, isSkipFieldNotFound, mkInternal]
  · intro hp
    simp only [structLoopFR, FieldRulesI.FindStructField,
      PointerFieldRules.FindStructField, hp, isSkipFieldNotFound,
      Bool.false_eq_true, if_false, mkInternal]
  · intro hp
    simp only [structLoopFR, FieldRulesI.FindStructField,
      PointerFieldRules.FindStructField, hp, isSkipFieldNotFound,
      Bool.false_eq_true, if_false, mkInternal]

/-- Witness for C4: on an empty record, a skip-if-not-found locator for a
missing field yields success, while the same locator without the flag
aborts the call with the resolution failure wrapped as an internal error
(and the later failing-rule locator is never reached). -/
theorem claim_C4_locator_resolution_failure_witness :
    validateStructFieldRules none (.ptrToStruct ⟨[]⟩)
      [.named ⟨"Nope", [], false, true⟩] = none ∧
    validateStructFieldRules none (.ptrToStruct ⟨[]⟩)
      [.named ⟨"Nope", [], false, false⟩,
       .ptr ⟨.notPtr, [ruleFailWith "later"], false⟩] =
      some (.internal (some (.verr "validation_field_required"
        "missing required field: \x7b\x7b.field_name\x7d\x7d"
        [("field_name", "Nope")]))) := by
  constructor
  · have h := (claim_C4_locator_resolution_failure none ⟨[]⟩
      ⟨"Nope", [], false, true⟩ ⟨.notPtr, [], false⟩ [] 0 []).1 rfl rfl
    exact h
  · have h := (claim_C4_locator_resolution_failure none ⟨[]⟩
      ⟨"Nope", [], false, false⟩ ⟨.notPtr, [], false⟩
      [.ptr ⟨.notPtr, [ruleFailWith "later"], false⟩] 0 []).2.1 rfl rfl
    exact h

/-- C9.  `WithOptions` is copy-on-write: it never mutates an existing
options cell (all cells below the old store length are unchanged, so the
parent context and the process-wide default observe the same options as
before), the new context node observes a fresh copy of the current options
with exactly the selected fields replaced, and two contexts derived from
the same base keep independent configurations; each setter touches only
its own field. -/
theorem claim_C9_options_copy_on_write (st : List OptVals) (ctx : Option OCtx)
    (opts opts2 : List OOption) (hp : getOptsPtr ctx < st.length) :
    ((WithOptions st ctx opts).1.take st.length = st)
    ∧ (getOptions (WithOptions st ctx opts).1 ctx = getOptions st ctx)
    ∧ (getOptions (WithOptions st ctx opts).1 (some (WithOptions st ctx opts).2) =
        opts.foldl applyOOption (getOptions st ctx))
    ∧ (getOptions (WithOptions (WithOptions st ctx opts).1 ctx opts2).1
         (some (WithOptions st ctx opts).2) =
        opts.foldl applyOOption (getOptions st ctx))
    ∧ (getOptions (WithOptions (WithOptions st ctx opts).1 ctx opts2).1
         (some (WithOptions (WithOptions st ctx opts).1 ctx opts2).2) =
        opts2.foldl applyOOption (getOptions st ctx))
    ∧ (getOptions (WithOptions (WithOptions st ctx opts).1 ctx opts2).1 ctx =
        getOptions st ctx)
    ∧ (∀ (o : OptVals) (g : Nat),
        (applyOOption o (.setValuerFunc g)).getErrorFieldNameFunc =
          o.getErrorFieldNameFunc
        ∧ (applyOOption o (.setGetErrorFieldNameFunc g)).valuerFunc =
          o.valuerFunc) := by
  have hframe : ∀ (l : List OptVals) (x : OptVals) (q : Nat), q < l.length →
      storeGet (l ++ [x]) q = storeGet l q := by
    intro l x q hq
    unfold storeGet
    rw [List.get?_append hq]
  have hfresh : ∀ (l : List OptVals) (x : OptVals),
      storeGet (l ++ [x]) l.length = x := by
    intro l x
    unfold storeGet
    rw [List.get?_concat_length]
    rfl
  refine ⟨?_, ?_, ?_, ?_, ?_, ?_, fun o g => ⟨rfl, rfl⟩⟩
  · exact List.take_left st _
  · exact hframe st _ (getOptsPtr ctx) hp
  · exact hfresh st _
  · show storeGet
        ((st ++ [opts.foldl applyOOption (getOptions st ctx)]) ++
          [opts2.foldl applyOOption
            (getOptions (st ++ [opts.foldl applyOOption (getOptions st ctx)]) ctx)])
        st.length = opts.foldl applyOOption (getOptions st ctx)
    rw [hframe (st ++ [opts.foldl applyOOption (getOptions st ctx)]) _ st.length
      (by simp), hfresh st _]
  · show storeGet
        ((st ++ [opts.foldl applyOOption (getOptions st ctx)]) ++
          [opts2.foldl applyOOption
            (getOptions (st ++ [opts.foldl applyOOption (getOptions st ctx)]) ctx)])
        (st ++ [opts.foldl applyOOption (getOptions st ctx)]).length =
      opts2.foldl applyOOption (getOptions st ctx)
    rw [hfresh (st ++ [opts.foldl applyOOption (getOptions st ctx)]) _]
    show opts2.foldl applyOOption
        (storeGet (st ++ [opts.foldl applyOOption (getOptions st ctx)])
          (getOptsPtr ctx)) =
      opts2.foldl applyOOption (getOptions st ctx)
    rw [hframe st _ (getOptsPtr ctx) hp]
    rfl
  · show storeGet
        ((st ++ [opts.foldl applyOOption (getOptions st ctx)]) ++
          [opts2.foldl applyOOption
            (getOptions (st ++ [opts.foldl applyOOption (getOptions st ctx)]) ctx)])
        (getOptsPtr ctx) = getOptions st ctx
    rw [hframe (st ++ [opts.foldl applyOOption (getOptions st ctx)]) _ (getOptsPtr ctx)
        (by simp; omega),
      hframe st _ (getOptsPtr ctx) hp]
    rfl

/-- Witness for C9: overriding the valuer on the default store yields a
fresh configuration seen only by the derived context; the base context
still observes the untouched default. -/
theorem claim_C9_options_copy_on_write_witness :
    getOptions (WithOptions [defaultOptVals] none [OOption.setValuerFunc 5]).1
      (some (WithOptions [defaultOptVals] none [OOption.setValuerFunc 5]).2) =
      { valuerFunc := 5, getErrorFieldNameFunc := 1 } ∧
    getOptions (WithOptions [defaultOptVals] none [OOption.setValuerFunc 5]).1
      none = defaultOptVals := by
  have h := claim_C9_options_copy_on_write [defaultOptVals] none
    [OOption.setValuerFunc 5] [] (by decide)
  refine ⟨?_, ?_⟩
  · rw [h.2.2.1]
    rfl
  · rw [h.2.1]
    rfl
